import Mathlib

/-!
Verification of the SwimBench AI backend (src/main.py) against its
natural-language specification.

The repository is a single FastAPI + agno agent configuration file.  The
numeric benchmarking core described by the specification exists in the
source only as the agent's instruction block, so those operations are
modelled from the spec (each such definition says so in its doc comment);
everything that is literal code in src/main.py (the environment check, the
`/loadknowledge` endpoint, the PostgresTools configuration, the instruction
strings) is embedded directly from the source.
-/

namespace SwimBench

/-! ## Vocabulary enums (spec section 6, src/main.py instruction lines 166-167, 184) -/

/-- The 13 recognized race events (src/main.py line 166). -/
inductive Event
  | fr50 | fr100 | fr200 | fr500 | fr1650
  | bk100 | bk200
  | br100 | br200
  | fl100 | fl200
  | im200 | im400
deriving DecidableEq, Fintype, Repr

/-- Pool courses (src/main.py line 129). -/
inductive Course
  | SCY | SCM | LCM
deriving DecidableEq, Fintype, Repr

/-- Gender (src/main.py line 128). -/
inductive Gender
  | M | F
deriving DecidableEq, Fintype, Repr

/-- The 5 USA Swimming age bands (src/main.py line 167). -/
inductive AgeGroup
  | u10 | g11 | g13 | g15 | g17
deriving DecidableEq, Fintype, Repr

/-- USA Swimming motivational standard levels, weakest to strongest
(src/main.py line 101). -/
inductive Level
  | B | BB | A | AA | AAA | AAAA
deriving DecidableEq, Fintype, Repr

/-- College recruiting divisions (spec data model). -/
inductive Division
  | d1Elite | d1MidMajor | d2 | d3
deriving DecidableEq, Fintype, Repr

def AgeGroup.index : AgeGroup → Nat
  | .u10 => 0
  | .g11 => 1
  | .g13 => 2
  | .g15 => 3
  | .g17 => 4

def AgeGroup.all : List AgeGroup := [.u10, .g11, .g13, .g15, .g17]

def Level.index : Level → Nat
  | .B => 0
  | .BB => 1
  | .A => 2
  | .AA => 3
  | .AAA => 4
  | .AAAA => 5

def Level.all : List Level := [.B, .BB, .A, .AA, .AAA, .AAAA]

def Division.all : List Division := [.d1Elite, .d1MidMajor, .d2, .d3]

/-! ## Data model (spec section 3) -/

/-- Modelled from the spec: StandardEntry row of the Standards Store
(table ai.usa_swimming_standards; the table itself is not in src/). -/
structure StandardEntry where
  event : Event
  course : Course
  gender : Gender
  ageGroup : AgeGroup
  level : Level
  time : ℚ
deriving DecidableEq, Repr

/-- Modelled from the spec: RecruitingThreshold row of the Standards Store
(table ai.college_recruiting_standards; the table itself is not in src/). -/
structure RecruitingThreshold where
  event : Event
  course : Course
  gender : Gender
  division : Division
  time : ℚ
deriving DecidableEq, Repr

/-- Modelled from the spec: the AnalysisResult record produced by the
Benchmarking Engine (spec section 3). -/
structure AnalysisResult where
  input_time : ℚ
  event : Event
  course : Course
  gender : Gender
  age_group_used : AgeGroup
  fallback_applied : Bool
  percentile : ℚ
  standard_level : Option Level
  ability_tier : String
  recruiting_qualification : List (Division × Bool)
  next_goal : Option (Level × ℚ × ℚ)
deriving DecidableEq, Repr

/-! ## Benchmarking Engine (spec section 4.1; in src/main.py this computation
exists only as the agent instruction block, lines 121-167, so it is
modelled from the spec) -/

/-- Modelled from the spec: fixed banding of an age into its USA Swimming
age group (spec sections 3 and 4.1). -/
def ageGroupOf (age : Nat) : AgeGroup :=
  if age ≤ 10 then .u10
  else if age ≤ 12 then .g11
  else if age ≤ 14 then .g13
  else if age ≤ 16 then .g15
  else .g17

/-- Absolute band distance between two age groups (spec section 4.1:
nearest age group by absolute band distance). -/
def bandDistance (a b : AgeGroup) : Nat :=
  ((a.index : Int) - (b.index : Int)).natAbs

/-- The StandardEntry rows matching one (event, course, gender, age group)
key (spec section 4.1: instruction line 132 queries
ai.usa_swimming_standards). -/
def rowsFor (standards : List StandardEntry) (e : Event) (c : Course)
    (g : Gender) (ag : AgeGroup) : List StandardEntry :=
  standards.filter fun r =>
    decide (r.event = e ∧ r.course = c ∧ r.gender = g ∧ r.ageGroup = ag)

/-- Age groups that have at least one matching row for the key. -/
def groupsWithRows (standards : List StandardEntry) (e : Event) (c : Course)
    (g : Gender) : List AgeGroup :=
  AgeGroup.all.filter fun ag => decide (rowsFor standards e c g ag ≠ [])

/-- Modelled from the spec: resolve the age group, falling back to the
nearest group (by absolute band distance) that has rows when the exact
group has none (spec section 4.1; instruction line 135 of src/main.py:
if exact age group not found, use closest age group and explain). -/
def resolveAgeGroup (standards : List StandardEntry) (e : Event) (c : Course)
    (g : Gender) (exact : AgeGroup) : Option AgeGroup :=
  if rowsFor standards e c g exact ≠ [] then some exact
  else (groupsWithRows standards e c g).argmin (bandDistance exact)

/-- First threshold time recorded for a level among the rows. -/
def levelTime (rows : List StandardEntry) (lv : Level) : Option ℚ :=
  (rows.find? fun r => decide (r.level = lv)).map (·.time)

/-- The level thresholds present among the rows, in level order weakest to
strongest (spec section 4.1: the ordered set of level thresholds). -/
def levelThresholds (rows : List StandardEntry) : List (Level × ℚ) :=
  Level.all.filterMap fun lv => (levelTime rows lv).map fun t => (lv, t)

/-- Modelled from the spec: percentile anchors for n level thresholds,
evenly spaced from 0 (weakest) to 100 (strongest). -/
def anchors (n : Nat) : List ℚ :=
  List.map (fun i : ℕ => 100 * (i : ℚ) / ((n - 1 : ℕ) : ℚ)) (List.range n)

/-- Threshold times paired with their percentile anchors. -/
def withAnchors (ts : List ℚ) : List (ℚ × ℚ) :=
  ts.zip (anchors ts.length)

/-- Modelled from the spec: locate the input time within the ordered
threshold/percentile pairs and linearly interpolate between the two
bounding levels, clamping outside the bounds (spec section 4.1). -/
def interpPct (x : ℚ) : List (ℚ × ℚ) → ℚ
  | [] => 0
  | [q] => q.2
  | q1 :: q2 :: rest =>
    if q1.1 ≤ x then q1.2
    else if q2.1 ≤ x then q1.2 + (q2.2 - q1.2) * ((q1.1 - x) / (q1.1 - q2.1))
    else interpPct x (q2 :: rest)

/-- Modelled from the spec: the highest level whose threshold time is not
faster than the input time; ties go toward the higher level (spec
section 4.1). -/
def standardLevel (ts : List (Level × ℚ)) (x : ℚ) : Option Level :=
  ((ts.filter fun lt => decide (x ≤ lt.2)).getLast?).map (·.1)

/-- Modelled from the spec: ability tier derived from the standard level. -/
def abilityTier : Option Level → String
  | none => "Beginner"
  | some .B => "Novice"
  | some .BB => "Novice"
  | some .A => "Intermediate"
  | some .AA => "Intermediate"
  | some .AAA => "Advanced"
  | some .AAAA => "Elite"

/-- Modelled from the spec: the next stricter level above the current one,
its threshold time, and the seconds to drop clamped to be nonnegative;
none when already at the top (spec section 4.1). -/
def nextGoal (ts : List (Level × ℚ)) (x : ℚ) : Option (Level × ℚ × ℚ) :=
  match standardLevel ts x with
  | none => ts.head?.map fun lt => (lt.1, lt.2, max 0 (x - lt.2))
  | some lv =>
    (ts.find? fun lt => decide (lv.index < lt.1.index)).map
      fun lt => (lt.1, lt.2, max 0 (x - lt.2))

/-- The recruiting threshold row for one division key (instruction line 133
of src/main.py queries ai.college_recruiting_standards). -/
def findThreshold (recruiting : List RecruitingThreshold) (e : Event)
    (c : Course) (g : Gender) (d : Division) : Option RecruitingThreshold :=
  recruiting.find? fun th =>
    decide (th.event = e ∧ th.course = c ∧ th.gender = g ∧ th.division = d)

/-- Modelled from the spec: qualified for a division iff the input time is
less than or equal to that division threshold; exact equality qualifies
(spec sections 4.1 and 8). -/
def qualifies (recruiting : List RecruitingThreshold) (e : Event) (c : Course)
    (g : Gender) (d : Division) (x : ℚ) : Bool :=
  match findThreshold recruiting e c g d with
  | some th => decide (x ≤ th.time)
  | none => false

/-- Analysis error taxonomy (spec sections 4.1 and 7). -/
inductive AnalyzeError
  | invalidTime
  | standardsUnavailable
deriving DecidableEq, Repr

/-- The threshold/percentile pairs used for the percentile of one resolved
key. -/
def pairsFor (standards : List StandardEntry) (e : Event) (c : Course)
    (g : Gender) (ag : AgeGroup) : List (ℚ × ℚ) :=
  withAnchors ((levelThresholds (rowsFor standards e c g ag)).map (·.2))

/-- The AnalysisResult assembled on the success path of analyze. -/
def buildResult (standards : List StandardEntry)
    (recruiting : List RecruitingThreshold) (time : ℚ) (e : Event) (g : Gender)
    (c : Course) (exact grp : AgeGroup) : AnalysisResult :=
  let ts := levelThresholds (rowsFor standards e c g grp)
  { input_time := time
    event := e
    course := c
    gender := g
    age_group_used := grp
    fallback_applied := decide (grp ≠ exact)
    percentile := interpPct time (pairsFor standards e c g grp)
    standard_level := standardLevel ts time
    ability_tier := abilityTier (standardLevel ts time)
    recruiting_qualification :=
      Division.all.map fun d => (d, qualifies recruiting e c g d time)
    next_goal := nextGoal ts time }

/-- Modelled from the spec: the Benchmarking Engine contract
analyze(time, event, age, gender, course) over a standards snapshot
(spec section 4.1).  Pure: the snapshot is passed in, not fetched. -/
def analyze (standards : List StandardEntry)
    (recruiting : List RecruitingThreshold) (time : ℚ) (e : Event) (age : Nat)
    (g : Gender) (c : Course) : Except AnalyzeError AnalysisResult :=
  if time ≤ 0 then .error .invalidTime
  else
    match resolveAgeGroup standards e c g (ageGroupOf age) with
    | none => .error .standardsUnavailable
    | some grp => .ok (buildResult standards recruiting time e g c (ageGroupOf age) grp)

/-! ## Conversation Orchestrator (spec section 4.4; in src/main.py the turn
logic exists only as the agent instruction block, so it is modelled from
the spec and the instruction strings) -/

inductive Field
  | event | age | time | gender | course
deriving DecidableEq, Repr

/-- A time-analysis request with the fields the instructions collect
(src/main.py lines 121-129). -/
structure TurnRequest where
  event : Option Event
  age : Option Nat
  time : Option ℚ
  gender : Option Gender
  course : Option Course
deriving DecidableEq, Repr

/-- The required fields that are missing from a request (src/main.py
lines 121-125: event, age and time are required). -/
def missingRequired (req : TurnRequest) : List Field :=
  (if req.event.isNone then [Field.event] else []) ++
  (if req.age.isNone then [Field.age] else []) ++
  (if req.time.isNone then [Field.time] else [])

/-- Gender default M when unspecified (src/main.py line 128). -/
def resolveGender (g : Option Gender) : Gender := g.getD .M

/-- Course default SCY when unspecified (src/main.py line 129). -/
def resolveCourse (c : Option Course) : Course := c.getD .SCY

/-- Tool calls a turn can issue through the Tool Gateway: a structured
read, a structured write, or a semantic search (spec section 4.3;
the write appears because instruction line 134 of src/main.py directs
the agent to store each analysis in ai.performance_analyses). -/
inductive ToolCall
  | structuredQuery (table : String)
  | structuredWrite (table : String)
  | semanticSearch (q : String)
deriving DecidableEq, Repr

inductive Reply
  | requestField (f : Field)
  | analysisReport (r : AnalysisResult)
  | analysisError (e : AnalyzeError)
deriving DecidableEq, Repr

inductive TurnState
  | awaitingInput | intentRouting | toolExecution | synthesis | complete
deriving DecidableEq, Repr

structure TurnOutcome where
  toolCalls : List ToolCall
  reply : Reply
  final : TurnState
deriving DecidableEq, Repr

/-- Modelled from the spec: one time-analysis turn of the Conversation
Orchestrator (spec section 4.4, instruction lines 121-135 of
src/main.py).  A missing required field ends the turn with zero tool
calls; otherwise the turn queries the two standards tables, stores the
analysis (instruction step 3) and reports. -/
def runAnalysisTurn (standards : List StandardEntry)
    (recruiting : List RecruitingThreshold) (req : TurnRequest) : TurnOutcome :=
  match req.event, req.age, req.time with
  | none, _, _ =>
    { toolCalls := [], reply := .requestField .event, final := .complete }
  | some _, none, _ =>
    { toolCalls := [], reply := .requestField .age, final := .complete }
  | some _, some _, none =>
    { toolCalls := [], reply := .requestField .time, final := .complete }
  | some e, some a, some t =>
    let g := resolveGender req.gender
    let c := resolveCourse req.course
    { toolCalls :=
        [.structuredQuery "ai.usa_swimming_standards",
         .structuredQuery "ai.college_recruiting_standards",
         .structuredWrite "ai.performance_analyses"]
      reply :=
        match analyze standards recruiting t e a g c with
        | .ok r => .analysisReport r
        | .error err => .analysisError err
      final := .complete }

/-! ## Instruction strings embedded verbatim from src/main.py -/

/-- The Database Query Strategy instruction block of the agent, verbatim
from src/main.py lines 131-135. -/
def databaseQueryStrategy : List String :=
  ["## Database Query Strategy:",
   "1. Query ai.usa_swimming_standards for age group standards",
   "2. Query ai.college_recruiting_standards for recruitment benchmarks",
   "3. Store analysis in ai.performance_analyses table",
   "4. If exact age group not found, use closest age group and explain"]

/-- The default-value instruction strings, verbatim from src/main.py
lines 128-129. -/
def inputDefaultDirectives : List String :=
  ["1. **Gender** (M/F) - default M if not specified",
   "2. **Course** (SCY/SCM/LCM) - default SCY if not specified"]

/-! ## Environment check at module load (src/main.py lines 31-44) -/

/-- The environment variables read at module load (src/main.py
lines 32-39), each either unset (none) or a string. -/
structure Env where
  openai_api_key : Option String
  database_connection_string : Option String
  database_host : Option String
  database_port : Option String
  database_name : Option String
  database_user : Option String
  database_password : Option String
  env_mode : Option String
deriving DecidableEq, Repr

/-- Python truthiness test applied by line 41 of src/main.py: an optional
string is falsy when it is absent or empty. -/
def pyFalsy : Option String → Bool
  | none => true
  | some s => decide (s = "")

/-- The module-load check of src/main.py lines 41-42: raise ValueError
when OPENAI_API_KEY is falsy; no other variable is checked. -/
def startupCheck (e : Env) : Except String Env :=
  if pyFalsy e.openai_api_key then .error "OPENAI_API_KEY not set in .env"
  else .ok e

/-- The PostgresTools construction of src/main.py lines 77-84: full
credentials, scoped to table schema ai, with no read-only restriction
configured. -/
structure PostgresToolsConfig where
  host : Option String
  port : Option String
  db_name : Option String
  user : Option String
  password : Option String
  table_schema : String
deriving DecidableEq, Repr

def postgres_tools (e : Env) : PostgresToolsConfig :=
  { host := e.database_host
    port := e.database_port
    db_name := e.database_name
    user := e.database_user
    password := e.database_password
    table_schema := "ai" }

/-! ## The /loadknowledge endpoint (src/main.py lines 224-272) -/

/-- Name of the first seed document (src/main.py line 238). -/
def usaDocName : String := "USA Swimming Motivational Time Standards 2024-2028"

/-- Name of the second seed document (src/main.py line 250). -/
def ncsaDocName : String := "College Swimming Recruiting Standards"

/-- The reply of the /loadknowledge endpoint: either the JSON success body
or an HTTPException with a status code and detail string. -/
inductive LoadReply
  | success (message : String) (loadedDocuments : List String)
  | httpError (statusCode : Nat) (detail : String)
deriving DecidableEq, Repr

/-- The load_knowledge endpoint body (src/main.py lines 224-272): clear the
corpus, ingest the USA Swimming document, then the NCSA document; any
raised ingestion error is caught by the surrounding try/except and
turned into a single HTTP 500 reply.  The corpus is a list of ingested
document names; res1/res2 are the outcomes of the two
add_content_async calls (chunk count or raised error message). -/
def load_knowledge (corpus : List String) (res1 res2 : Except String Nat) :
    List String × LoadReply :=
  let cleared : List String := []
  match res1 with
  | .error e => (cleared, .httpError 500 ("Error loading knowledge: " ++ e))
  | .ok _ =>
    let afterFirst := cleared ++ [usaDocName]
    match res2 with
    | .error e => (afterFirst, .httpError 500 ("Error loading knowledge: " ++ e))
    | .ok _ =>
      (afterFirst ++ [ncsaDocName],
        .success "SwimBench knowledge base loaded successfully"
          ["USA Swimming Standards 2024-2028", "College Recruiting Standards"])

/-! ## Interleaving model of the reload cycle (src/main.py lines 232-257)

load_knowledge runs on the asyncio event loop; each awaited call
(clear, first ingestion, second ingestion) is a suspension point after
which any other request task, for example a knowledge search on behalf
of a conversation turn, may run.  A schedule is summarized by how many
loader steps have completed when the concurrent search runs. -/

inductive LoaderStep
  | clearStep | ingestUSA | ingestNCSA
deriving DecidableEq, Repr

/-- The sequence of awaited corpus operations inside load_knowledge
(src/main.py lines 234, 237, 249). -/
def loaderProgram : List LoaderStep := [.clearStep, .ingestUSA, .ingestNCSA]

def applyLoaderStep : List String → LoaderStep → List String
  | _, .clearStep => []
  | corpus, .ingestUSA => corpus ++ [usaDocName]
  | corpus, .ingestNCSA => corpus ++ [ncsaDocName]

/-- Corpus contents after the first k loader steps have completed. -/
def corpusAfter (init : List String) (k : Nat) : List String :=
  (loaderProgram.take k).foldl applyLoaderStep init

/-- What an unrelated concurrent search observes when it is scheduled after
k loader steps: src/main.py holds no lock and swaps no generation, so
the search reads the shared corpus as it stands. -/
def searchDuringReload (init : List String) (k : Nat) : List String :=
  corpusAfter init k

/-! ## Ordering predicates used to state the spec's monotonicity invariant -/

/-- Strictly descending list of times. -/
def strictDesc : List ℚ → Bool
  | [] => true
  | [_] => true
  | a :: b :: l => decide (b < a) && strictDesc (b :: l)

/-- Non-decreasing list of percentile anchors. -/
def monoAsc : List ℚ → Bool
  | [] => true
  | [_] => true
  | a :: b :: l => decide (a ≤ b) && monoAsc (b :: l)

/-- Pair list whose times (first components) strictly descend. -/
def tdesc : List (ℚ × ℚ) → Bool
  | [] => true
  | [_] => true
  | q1 :: q2 :: l => decide (q2.1 < q1.1) && tdesc (q2 :: l)

/-- Pair list whose percentiles (second components) are non-decreasing. -/
def pmono : List (ℚ × ℚ) → Bool
  | [] => true
  | [_] => true
  | q1 :: q2 :: l => decide (q1.2 ≤ q2.2) && pmono (q2 :: l)

def headTime : List (ℚ × ℚ) → ℚ
  | [] => 0
  | q :: _ => q.1

def headPct : List (ℚ × ℚ) → ℚ
  | [] => 0
  | q :: _ => q.2

def lastTime : List (ℚ × ℚ) → ℚ
  | [] => 0
  | [q] => q.1
  | _ :: q2 :: l => lastTime (q2 :: l)

def lastPct : List (ℚ × ℚ) → ℚ
  | [] => 0
  | [q] => q.2
  | _ :: q2 :: l => lastPct (q2 :: l)

/-- The spec's StandardEntry invariant (spec section 3): for every fixed
(event, course, gender, age group) key the level thresholds are strictly
monotonic in time — a faster time at every higher level. -/
@[reducible] def MonoSnapshot (standards : List StandardEntry) : Prop :=
  ∀ e c g ag,
    strictDesc ((levelThresholds (rowsFor standards e c g ag)).map (·.2)) = true

/-! ## Concrete fixtures used by the witness theorems -/

/-- A two-level snapshot for the 13-14 age group: AA at 60 seconds and AAA
at 50 seconds for the 100 freestyle SCY men. -/
def demoStandards : List StandardEntry :=
  [{ event := .fr100, course := .SCY, gender := .M, ageGroup := .g13,
     level := .AA, time := 60 },
   { event := .fr100, course := .SCY, gender := .M, ageGroup := .g13,
     level := .AAA, time := 50 }]

/-- One D2 recruiting threshold at 60 seconds for the 100 freestyle SCY men. -/
def demoRecruiting : List RecruitingThreshold :=
  [{ event := .fr100, course := .SCY, gender := .M, division := .d2, time := 60 }]

/-- A snapshot with rows only in the 15-16 band, so that a 9 year old
triggers the age-group fallback. -/
def fbStandards : List StandardEntry :=
  [{ event := .fr50, course := .SCY, gender := .M, ageGroup := .g15,
     level := .B, time := 40 }]

/-- A complete analysis request (event, age and time all present). -/
def fullReq : TurnRequest :=
  { event := some .fr100, age := some 14, time := some 60,
    gender := none, course := none }

/-- A request missing its event field. -/
def noEventReq : TurnRequest :=
  { event := none, age := some 14, time := some 60,
    gender := none, course := none }

/-- An environment whose OPENAI_API_KEY is set to the empty string and
whose database variables are all set. -/
def envEmptyKey : Env :=
  { openai_api_key := some ""
    database_connection_string := some "postgres://db"
    database_host := some "localhost"
    database_port := some "5432"
    database_name := some "swim"
    database_user := some "swim"
    database_password := some "pw"
    env_mode := some "development" }

/-- The analysis of a 55 second 100 freestyle by a 14 year old male against
demoStandards and demoRecruiting (percentile 50, level AA, D2 qualified). -/
def demoR55 : AnalysisResult :=
  buildResult demoStandards demoRecruiting 55 .fr100 .M .SCY (ageGroupOf 14) .g13

/-- The analysis of a 58 second swim over the same snapshot (percentile 20). -/
def demoR58 : AnalysisResult :=
  buildResult demoStandards demoRecruiting 58 .fr100 .M .SCY (ageGroupOf 14) .g13

/-- The analysis of a 60 second swim over the same snapshot: exactly on the
D2 recruiting threshold, so D2 qualification holds at the boundary. -/
def demoR60 : AnalysisResult :=
  buildResult demoStandards demoRecruiting 60 .fr100 .M .SCY (ageGroupOf 14) .g13

/-- The analysis of a 35 second 50 freestyle by a 9 year old against
fbStandards: the 10-under band has no rows, so the 15-16 band is
substituted. -/
def fbR35 : AnalysisResult :=
  buildResult fbStandards [] 35 .fr50 .M .SCY (ageGroupOf 9) .g15

/-! ## Lemmas about the ordering predicates -/

theorem pmono_tail {q : ℚ × ℚ} {l : List (ℚ × ℚ)} (h : pmono (q :: l) = true) :
    pmono l = true := by
  cases l with
  | nil => rfl
  | cons q2 l => simp only [pmono, Bool.and_eq_true] at h; exact h.2

theorem pmono_head_le {q1 q2 : ℚ × ℚ} {l : List (ℚ × ℚ)}
    (h : pmono (q1 :: q2 :: l) = true) : q1.2 ≤ q2.2 := by
  simp only [pmono, Bool.and_eq_true, decide_eq_true_eq] at h
  exact h.1

theorem tdesc_tail {q : ℚ × ℚ} {l : List (ℚ × ℚ)} (h : tdesc (q :: l) = true) :
    tdesc l = true := by
  cases l with
  | nil => rfl
  | cons q2 l => simp only [tdesc, Bool.and_eq_true] at h; exact h.2

theorem tdesc_head_lt {q1 q2 : ℚ × ℚ} {l : List (ℚ × ℚ)}
    (h : tdesc (q1 :: q2 :: l) = true) : q2.1 < q1.1 := by
  simp only [tdesc, Bool.and_eq_true, decide_eq_true_eq] at h
  exact h.1

theorem pmono_head_le_last {l : List (ℚ × ℚ)} (h : pmono l = true) :
    headPct l ≤ lastPct l := by
  induction l with
  | nil => exact le_refl 0
  | cons q1 l ih =>
    cases l with
    | nil => exact le_refl _
    | cons q2 l =>
      calc headPct (q1 :: q2 :: l) = q1.2 := rfl
        _ ≤ q2.2 := pmono_head_le h
        _ = headPct (q2 :: l) := rfl
        _ ≤ lastPct (q2 :: l) := ih (pmono_tail h)
        _ = lastPct (q1 :: q2 :: l) := rfl

theorem tdesc_last_le_head {l : List (ℚ × ℚ)} (h : tdesc l = true) :
    lastTime l ≤ headTime l := by
  induction l with
  | nil => exact le_refl 0
  | cons q1 l ih =>
    cases l with
    | nil => exact le_refl _
    | cons q2 l =>
      calc lastTime (q1 :: q2 :: l) = lastTime (q2 :: l) := rfl
        _ ≤ headTime (q2 :: l) := ih (tdesc_tail h)
        _ = q2.1 := rfl
        _ ≤ q1.1 := le_of_lt (tdesc_head_lt h)

theorem tdesc_last_lt_of_two {q1 q2 : ℚ × ℚ} {l : List (ℚ × ℚ)}
    (h : tdesc (q1 :: q2 :: l) = true) : lastTime (q1 :: q2 :: l) < q1.1 := by
  have h1 : lastTime (q1 :: q2 :: l) = lastTime (q2 :: l) := rfl
  have h2 : lastTime (q2 :: l) ≤ q2.1 := tdesc_last_le_head (tdesc_tail h)
  have h3 : q2.1 < q1.1 := tdesc_head_lt h
  rw [h1]
  exact lt_of_le_of_lt h2 h3

theorem lastPct_mem {l : List (ℚ × ℚ)} (h : l ≠ []) :
    ∃ q, q ∈ l ∧ lastPct l = q.2 := by
  induction l with
  | nil => exact absurd rfl h
  | cons q1 l ih =>
    cases l with
    | nil => exact ⟨q1, List.mem_singleton_self q1, rfl⟩
    | cons q2 l =>
      obtain ⟨q, hq, hval⟩ := ih (List.cons_ne_nil q2 l)
      exact ⟨q, List.mem_cons_of_mem q1 hq, hval⟩

/-! ## Lemmas about the interpolation primitive -/

/-- Within one segment the interpolated value lies between the two anchors. -/
theorem segment_bounds {t1 t2 p1 p2 x : ℚ} (ht : t2 < t1) (hx1 : x < t1)
    (hx2 : t2 ≤ x) (hp : p1 ≤ p2) :
    p1 ≤ p1 + (p2 - p1) * ((t1 - x) / (t1 - t2)) ∧
      p1 + (p2 - p1) * ((t1 - x) / (t1 - t2)) ≤ p2 := by
  have hd : (0 : ℚ) < t1 - t2 := by linarith
  have h0 : (0 : ℚ) ≤ (t1 - x) / (t1 - t2) := div_nonneg (by linarith) (le_of_lt hd)
  have h1 : (t1 - x) / (t1 - t2) ≤ 1 := (div_le_one hd).mpr (by linarith)
  constructor
  · nlinarith
  · nlinarith

/-- The interpolated value is antitone in the input time within a segment. -/
theorem segment_antitone {t1 t2 p1 p2 x y : ℚ} (ht : t2 < t1) (hp : p1 ≤ p2)
    (hxy : x ≤ y) :
    p1 + (p2 - p1) * ((t1 - y) / (t1 - t2)) ≤
      p1 + (p2 - p1) * ((t1 - x) / (t1 - t2)) := by
  have hd : (0 : ℚ) < t1 - t2 := by linarith
  have hdiv : (t1 - y) / (t1 - t2) ≤ (t1 - x) / (t1 - t2) :=
    (div_le_div_iff_of_pos_right hd).mpr (by linarith)
  nlinarith

/-- The interpolated value lies between the first and last anchors. -/
theorem interpPct_bounds {l : List (ℚ × ℚ)} (h : pmono l = true) (x : ℚ) :
    headPct l ≤ interpPct x l ∧ interpPct x l ≤ lastPct l := by
  induction l with
  | nil => exact ⟨le_refl 0, le_refl 0⟩
  | cons q1 l ih =>
    cases l with
    | nil => exact ⟨le_refl _, le_refl _⟩
    | cons q2 l =>
      have hp : q1.2 ≤ q2.2 := pmono_head_le h
      have htail : pmono (q2 :: l) = true := pmono_tail h
      have h2last : q2.2 ≤ lastPct (q2 :: l) := pmono_head_le_last htail
      have hlast : lastPct (q1 :: q2 :: l) = lastPct (q2 :: l) := rfl
      have hhead : headPct (q1 :: q2 :: l) = q1.2 := rfl
      rw [hlast, hhead]
      by_cases h1 : q1.1 ≤ x
      · simp only [interpPct, if_pos h1]
        exact ⟨le_refl _, le_trans hp h2last⟩
      · by_cases h2 : q2.1 ≤ x
        · simp only [interpPct, if_neg h1, if_pos h2]
          have hseg := segment_bounds (lt_of_le_of_lt h2 (not_le.mp h1))
            (not_le.mp h1) h2 hp
          exact ⟨hseg.1, le_trans hseg.2 h2last⟩
        · simp only [interpPct, if_neg h1, if_neg h2]
          have hb := ih htail
          exact ⟨le_trans hp hb.1, hb.2⟩

/-- The interpolated value is antitone in the input time. -/
theorem interpPct_antitone {l : List (ℚ × ℚ)} (hd : tdesc l = true)
    (hm : pmono l = true) {x y : ℚ} (hxy : x ≤ y) :
    interpPct y l ≤ interpPct x l := by
  induction l with
  | nil => exact le_refl 0
  | cons q1 l ih =>
    cases l with
    | nil => exact le_refl _
    | cons q2 l =>
      have ht : q2.1 < q1.1 := tdesc_head_lt hd
      have hp : q1.2 ≤ q2.2 := pmono_head_le hm
      have hmt : pmono (q2 :: l) = true := pmono_tail hm
      have hdt : tdesc (q2 :: l) = true := tdesc_tail hd
      by_cases h1y : q1.1 ≤ y
      · have hy : interpPct y (q1 :: q2 :: l) = q1.2 := by
          simp only [interpPct, if_pos h1y]
        rw [hy]
        exact (interpPct_bounds hm x).1
      · by_cases h2y : q2.1 ≤ y
        · have h1x : ¬ q1.1 ≤ x := fun hc => h1y (le_trans hc hxy)
          have hy : interpPct y (q1 :: q2 :: l) =
              q1.2 + (q2.2 - q1.2) * ((q1.1 - y) / (q1.1 - q2.1)) := by
            simp only [interpPct, if_neg h1y, if_pos h2y]
          by_cases h2x : q2.1 ≤ x
          · have hx : interpPct x (q1 :: q2 :: l) =
                q1.2 + (q2.2 - q1.2) * ((q1.1 - x) / (q1.1 - q2.1)) := by
              simp only [interpPct, if_neg h1x, if_pos h2x]
            rw [hx, hy]
            exact segment_antitone ht hp hxy
          · have hx : interpPct x (q1 :: q2 :: l) = interpPct x (q2 :: l) := by
              simp only [interpPct, if_neg h1x, if_neg h2x]
            rw [hx, hy]
            have hylow := (segment_bounds ht (not_le.mp h1y) h2y hp).2
            have hxhigh : q2.2 ≤ interpPct x (q2 :: l) := (interpPct_bounds hmt x).1
            exact le_trans hylow hxhigh
        · have h1x : ¬ q1.1 ≤ x := fun hc => h1y (le_trans hc hxy)
          have h2x : ¬ q2.1 ≤ x := fun hc => h2y (le_trans hc hxy)
          have hy : interpPct y (q1 :: q2 :: l) = interpPct y (q2 :: l) := by
            simp only [interpPct, if_neg h1y, if_neg h2y]
          have hx : interpPct x (q1 :: q2 :: l) = interpPct x (q2 :: l) := by
            simp only [interpPct, if_neg h1x, if_neg h2x]
          rw [hx, hy]
          exact ih hdt hmt

/-- Times at or faster than the last (fastest) bound clamp to the last
anchor. -/
theorem interpPct_clamp_fast {l : List (ℚ × ℚ)} (hd : tdesc l = true) {x : ℚ}
    (hx : x ≤ lastTime l) : interpPct x l = lastPct l := by
  induction l with
  | nil => rfl
  | cons q1 l ih =>
    cases l with
    | nil => rfl
    | cons q2 l =>
      have hl : lastTime (q1 :: q2 :: l) = lastTime (q2 :: l) := rfl
      rw [hl] at hx
      have hlt : lastTime (q2 :: l) < q1.1 := by
        have := tdesc_last_lt_of_two hd
        rw [show lastTime (q1 :: q2 :: l) = lastTime (q2 :: l) from rfl] at this
        exact this
      have h1 : ¬ q1.1 ≤ x := not_le.mpr (lt_of_le_of_lt hx hlt)
      cases l with
      | nil =>
        by_cases h2 : q2.1 ≤ x
        · have hx2 : x = q2.1 := le_antisymm hx h2
          subst hx2
          have hne : q1.1 - q2.1 ≠ 0 := by
            have hlt := tdesc_head_lt hd
            intro hc
            apply absurd hlt
            simp only [not_lt]
            linarith [sub_eq_zero.mp hc]
          simp only [interpPct, if_neg h1, if_pos h2]
          rw [div_self hne]
          have hlp : lastPct [q1, q2] = q2.2 := rfl
          rw [hlp]
          linarith
        · simp only [interpPct, if_neg h1, if_neg h2]
          rfl
      | cons q3 l =>
        have hlt2 : lastTime (q2 :: q3 :: l) < q2.1 := tdesc_last_lt_of_two (tdesc_tail hd)
        have h2 : ¬ q2.1 ≤ x := not_le.mpr (lt_of_le_of_lt hx hlt2)
        have hv : interpPct x (q1 :: q2 :: q3 :: l) = interpPct x (q2 :: q3 :: l) := by
          simp only [interpPct, if_neg h1, if_neg h2]
        rw [hv]
        exact ih (tdesc_tail hd) hx

/-- Times at or slower than the first (slowest) bound clamp to the first
anchor. -/
theorem interpPct_clamp_slow {l : List (ℚ × ℚ)} {x : ℚ}
    (hx : headTime l ≤ x) : interpPct x l = headPct l := by
  cases l with
  | nil => rfl
  | cons q1 l =>
    cases l with
    | nil => rfl
    | cons q2 l => simp only [interpPct, if_pos (show q1.1 ≤ x from hx)]; rfl

/-! ## Lemmas about withAnchors -/

theorem tdesc_zip : ∀ (ts ps : List ℚ), strictDesc ts = true →
    tdesc (ts.zip ps) = true := by
  intro ts
  induction ts with
  | nil => intro ps h; rfl
  | cons t ts ih =>
    intro ps h
    cases ps with
    | nil => rfl
    | cons p ps =>
      cases ts with
      | nil => rfl
      | cons t2 ts =>
        cases ps with
        | nil => rfl
        | cons p2 ps =>
          simp only [strictDesc, Bool.and_eq_true, decide_eq_true_eq] at h
          have htail := ih (p2 :: ps) h.2
          simp only [List.zip_cons_cons] at htail ⊢
          simp only [tdesc, Bool.and_eq_true, decide_eq_true_eq]
          exact ⟨h.1, htail⟩

theorem pmono_zip : ∀ (ts ps : List ℚ), monoAsc ps = true →
    pmono (ts.zip ps) = true := by
  intro ts
  induction ts with
  | nil => intro ps h; rfl
  | cons t ts ih =>
    intro ps h
    cases ps with
    | nil => rfl
    | cons p ps =>
      cases ts with
      | nil => rfl
      | cons t2 ts =>
        cases ps with
        | nil => rfl
        | cons p2 ps =>
          simp only [monoAsc, Bool.and_eq_true, decide_eq_true_eq] at h
          have htail := ih (p2 :: ps) h.2
          simp only [List.zip_cons_cons] at htail ⊢
          simp only [pmono, Bool.and_eq_true, decide_eq_true_eq]
          exact ⟨h.1, htail⟩

theorem monoAsc_map_range :
    ∀ (n : ℕ) (f : ℕ → ℚ), (∀ i, f i ≤ f (i + 1)) →
      monoAsc ((List.range n).map f) = true := by
  intro n
  induction n with
  | zero => intro f hf; rfl
  | succ m ih =>
    intro f hf
    rw [List.range_succ_eq_map, List.map_cons, List.map_map]
    cases m with
    | zero => rfl
    | succ k =>
      have htail : monoAsc ((List.range (k + 1)).map (f ∘ Nat.succ)) = true :=
        ih (f ∘ Nat.succ) fun i => hf (i + 1)
      rw [List.range_succ_eq_map, List.map_cons, List.map_map] at htail ⊢
      simp only [monoAsc, Bool.and_eq_true, decide_eq_true_eq, Function.comp] at htail ⊢
      exact ⟨hf 0, htail⟩

theorem monoAsc_anchors (n : ℕ) : monoAsc (anchors n) = true := by
  unfold anchors
  apply monoAsc_map_range
  intro i
  rcases Nat.eq_zero_or_pos (n - 1) with hz | hpos
  · rw [hz]
    simp
  · have hd : (0 : ℚ) < ((n - 1 : ℕ) : ℚ) := by exact_mod_cast hpos
    apply (div_le_div_iff_of_pos_right hd).mpr
    push_cast
    linarith

theorem mem_anchors_bounds {n : ℕ} {b : ℚ} (hb : b ∈ anchors n) :
    0 ≤ b ∧ b ≤ 100 := by
  unfold anchors at hb
  obtain ⟨i, hi, rfl⟩ := List.mem_map.mp hb
  have hin := List.mem_range.mp hi
  have hd0 : (0 : ℚ) ≤ ((n - 1 : ℕ) : ℚ) := Nat.cast_nonneg _
  constructor
  · apply div_nonneg _ hd0
    positivity
  · rcases eq_or_lt_of_le hd0 with hz | hpos
    · rw [← hz, div_zero]
      norm_num
    · have hle : (i : ℚ) ≤ ((n - 1 : ℕ) : ℚ) := by
        have : i ≤ n - 1 := Nat.le_sub_one_of_lt hin
        exact_mod_cast this
      rw [div_le_iff₀ hpos]
      nlinarith

theorem pmono_withAnchors (ts : List ℚ) : pmono (withAnchors ts) = true :=
  pmono_zip ts (anchors ts.length) (monoAsc_anchors ts.length)

theorem tdesc_withAnchors {ts : List ℚ} (h : strictDesc ts = true) :
    tdesc (withAnchors ts) = true :=
  tdesc_zip ts (anchors ts.length) h

theorem mem_withAnchors_snd_bounds {ts : List ℚ} {q : ℚ × ℚ}
    (hq : q ∈ withAnchors ts) : 0 ≤ q.2 ∧ q.2 ≤ 100 := by
  obtain ⟨a, b⟩ := q
  have hmem := List.of_mem_zip hq
  exact mem_anchors_bounds hmem.2

/-- The interpolated percentile over anchored thresholds always lies in
[0, 100]. -/
theorem interpPct_withAnchors_bounds (ts : List ℚ) (x : ℚ) :
    0 ≤ interpPct x (withAnchors ts) ∧ interpPct x (withAnchors ts) ≤ 100 := by
  have hm := pmono_withAnchors ts
  have hb := interpPct_bounds hm x
  cases hw : withAnchors ts with
  | nil => norm_num [interpPct]
  | cons q l =>
    rw [hw] at hb
    have hhead : (0 : ℚ) ≤ headPct (q :: l) := by
      have hqb := mem_withAnchors_snd_bounds (hw ▸ List.mem_cons_self q l)
      exact hqb.1
    obtain ⟨qq, hqmem, hqval⟩ := lastPct_mem (List.cons_ne_nil q l)
    have hlast : lastPct (q :: l) ≤ 100 := by
      rw [hqval]
      exact (mem_withAnchors_snd_bounds (hw ▸ hqmem)).2
    exact ⟨le_trans hhead hb.1, le_trans hb.2 hlast⟩

/-! ## Structural lemmas about analyze and the age-group resolution -/

theorem analyze_ok_elim {standards : List StandardEntry}
    {recruiting : List RecruitingThreshold} {t : ℚ} {e : Event} {age : ℕ}
    {g : Gender} {c : Course} {r : AnalysisResult}
    (h : analyze standards recruiting t e age g c = .ok r) :
    ¬ t ≤ 0 ∧ ∃ grp, resolveAgeGroup standards e c g (ageGroupOf age) = some grp ∧
      r = buildResult standards recruiting t e g c (ageGroupOf age) grp := by
  unfold analyze at h
  by_cases h0 : t ≤ 0
  · rw [if_pos h0] at h
    exact absurd h (by simp)
  · rw [if_neg h0] at h
    cases hg : resolveAgeGroup standards e c g (ageGroupOf age) with
    | none => rw [hg] at h; exact absurd h (by simp)
    | some grp =>
      rw [hg] at h
      simp only [Except.ok.injEq] at h
      exact ⟨h0, grp, rfl, h.symm⟩

theorem buildResult_percentile (standards : List StandardEntry)
    (recruiting : List RecruitingThreshold) (t : ℚ) (e : Event) (g : Gender)
    (c : Course) (exact grp : AgeGroup) :
    (buildResult standards recruiting t e g c exact grp).percentile =
      interpPct t (pairsFor standards e c g grp) := rfl

theorem buildResult_age_group (standards : List StandardEntry)
    (recruiting : List RecruitingThreshold) (t : ℚ) (e : Event) (g : Gender)
    (c : Course) (exact grp : AgeGroup) :
    (buildResult standards recruiting t e g c exact grp).age_group_used = grp := rfl

theorem buildResult_fallback (standards : List StandardEntry)
    (recruiting : List RecruitingThreshold) (t : ℚ) (e : Event) (g : Gender)
    (c : Course) (exact grp : AgeGroup) :
    (buildResult standards recruiting t e g c exact grp).fallback_applied =
      decide (grp ≠ exact) := rfl

theorem buildResult_recruiting (standards : List StandardEntry)
    (recruiting : List RecruitingThreshold) (t : ℚ) (e : Event) (g : Gender)
    (c : Course) (exact grp : AgeGroup) :
    (buildResult standards recruiting t e g c exact grp).recruiting_qualification =
      Division.all.map fun d => (d, qualifies recruiting e c g d t) := rfl

theorem mem_ageGroup_all (ag : AgeGroup) : ag ∈ AgeGroup.all := by
  cases ag <;> simp [AgeGroup.all]

theorem mem_groupsWithRows {standards : List StandardEntry} {e : Event}
    {c : Course} {g : Gender} {ag : AgeGroup} :
    ag ∈ groupsWithRows standards e c g ↔ rowsFor standards e c g ag ≠ [] := by
  unfold groupsWithRows
  simp [List.mem_filter, mem_ageGroup_all]

theorem resolveAgeGroup_exact {standards : List StandardEntry} {e : Event}
    {c : Course} {g : Gender} {exact : AgeGroup}
    (h : rowsFor standards e c g exact ≠ []) :
    resolveAgeGroup standards e c g exact = some exact := by
  unfold resolveAgeGroup
  rw [if_pos h]

theorem resolveAgeGroup_fallback {standards : List StandardEntry} {e : Event}
    {c : Course} {g : Gender} {exact grp : AgeGroup}
    (h : rowsFor standards e c g exact = [])
    (hg : resolveAgeGroup standards e c g exact = some grp) :
    rowsFor standards e c g grp ≠ [] ∧
      ∀ ag, rowsFor standards e c g ag ≠ [] →
        bandDistance exact grp ≤ bandDistance exact ag := by
  unfold resolveAgeGroup at hg
  rw [if_neg (by simp [h])] at hg
  have hmem : grp ∈ (groupsWithRows standards e c g).argmin (bandDistance exact) :=
    Option.mem_def.mpr hg
  constructor
  · exact mem_groupsWithRows.mp (List.argmin_mem hmem)
  · intro ag hag
    exact List.le_of_mem_argmin (mem_groupsWithRows.mpr hag) hmem

/-! ## Concrete analyze evaluations shared by the witness theorems -/

theorem analyze_demo55 :
    analyze demoStandards demoRecruiting 55 .fr100 14 .M .SCY = .ok demoR55 := by
  unfold analyze
  rw [if_neg (by norm_num : ¬ (55 : ℚ) ≤ 0)]
  have hres : resolveAgeGroup demoStandards Event.fr100 Course.SCY Gender.M
      (ageGroupOf 14) = some AgeGroup.g13 := by decide
  rw [hres]
  rfl

theorem analyze_demo58 :
    analyze demoStandards demoRecruiting 58 .fr100 14 .M .SCY = .ok demoR58 := by
  unfold analyze
  rw [if_neg (by norm_num : ¬ (58 : ℚ) ≤ 0)]
  have hres : resolveAgeGroup demoStandards Event.fr100 Course.SCY Gender.M
      (ageGroupOf 14) = some AgeGroup.g13 := by decide
  rw [hres]
  rfl

theorem analyze_demo60 :
    analyze demoStandards demoRecruiting 60 .fr100 14 .M .SCY = .ok demoR60 := by
  unfold analyze
  rw [if_neg (by norm_num : ¬ (60 : ℚ) ≤ 0)]
  have hres : resolveAgeGroup demoStandards Event.fr100 Course.SCY Gender.M
      (ageGroupOf 14) = some AgeGroup.g13 := by decide
  rw [hres]
  rfl

theorem analyze_fb35 :
    analyze fbStandards [] 35 .fr50 9 .M .SCY = .ok fbR35 := by
  unfold analyze
  rw [if_neg (by norm_num : ¬ (35 : ℚ) ≤ 0)]
  have hres : resolveAgeGroup fbStandards Event.fr50 Course.SCY Gender.M
      (ageGroupOf 9) = some AgeGroup.g15 := by decide
  rw [hres]
  rfl

/-! ## Claim theorems -/

/-- C1 counterexample: the claim says the reload operation returns a
success/failure report per source and reports a second-document failure
distinctly.  In src/main.py both ingestion failures are caught by one
try/except and turned into the same aggregate 500 reply: with the same
exception text the reply for a first-document failure and for a
second-document failure are identical, so the reply identifies neither
which source failed nor that the first source succeeded — even though
the corpus state shows the first document was kept. -/
theorem C1_failure_report_not_per_source :
    (load_knowledge [] (Except.error "boom") (Except.ok 1)).2 =
      (load_knowledge [] (Except.ok 1) (Except.error "boom")).2 ∧
    (load_knowledge [] (Except.ok 1) (Except.error "boom")).1 = [usaDocName] :=
  ⟨rfl, rfl⟩

/-- C1 amended: load_knowledge clears the corpus and re-ingests exactly the
two fixed sources; a failure of the second ingestion does not roll back
the first (the USA document stays in the corpus) and any failure returns
a non-2xx HTTP 500 with an error description, but the reply is a single
aggregate report, not a per-source success/failure report. -/
theorem C1_load_knowledge_behavior (corpus : List String) (n1 n2 : ℕ)
    (msg : String) :
    load_knowledge corpus (Except.ok n1) (Except.ok n2) =
      ([usaDocName, ncsaDocName],
        .success "SwimBench knowledge base loaded successfully"
          ["USA Swimming Standards 2024-2028", "College Recruiting Standards"]) ∧
    load_knowledge corpus (Except.ok n1) (Except.error msg) =
      ([usaDocName], .httpError 500 ("Error loading knowledge: " ++ msg)) ∧
    load_knowledge corpus (Except.error msg) (Except.ok n2) =
      ([], .httpError 500 ("Error loading knowledge: " ++ msg)) :=
  ⟨rfl, rfl, rfl⟩

/-- C1 witness: the amended behavior at a concrete prior corpus, chunk
counts and error text. -/
theorem C1_load_knowledge_behavior_witness :
    load_knowledge [ncsaDocName] (Except.ok 3) (Except.ok 4) =
      ([usaDocName, ncsaDocName],
        .success "SwimBench knowledge base loaded successfully"
          ["USA Swimming Standards 2024-2028", "College Recruiting Standards"]) ∧
    load_knowledge [ncsaDocName] (Except.ok 3) (Except.error "fetch failed") =
      ([usaDocName], .httpError 500 ("Error loading knowledge: " ++ "fetch failed")) ∧
    load_knowledge [ncsaDocName] (Except.error "fetch failed") (Except.ok 4) =
      ([], .httpError 500 ("Error loading knowledge: " ++ "fetch failed")) :=
  C1_load_knowledge_behavior [ncsaDocName] 3 4 "fetch failed"

/-- C2 counterexample: the claim says no write path to the store is exposed
and every turn leaves the database tables unchanged by construction.
But the agent's own Database Query Strategy block (src/main.py line 134)
directs it to store each analysis in the ai.performance_analyses table
through the same full-credential PostgresTools, so a completed analysis
turn issues a structured write. -/
theorem C2_write_path_exposed :
    ToolCall.structuredWrite "ai.performance_analyses" ∈
      (runAnalysisTurn [] [] fullReq).toolCalls ∧
    "3. Store analysis in ai.performance_analyses table" ∈ databaseQueryStrategy :=
  ⟨by decide, by decide⟩

/-- C2 amended: a write path is exposed and used — the turn stores its
analysis — but the only table the instructions direct a write to is
ai.performance_analyses, not either standards table, and PostgresTools
is scoped to the fixed schema ai. -/
theorem C2_write_targets_only_analyses (standards : List StandardEntry)
    (recruiting : List RecruitingThreshold) (req : TurnRequest) (tbl : String)
    (h : ToolCall.structuredWrite tbl ∈
      (runAnalysisTurn standards recruiting req).toolCalls) :
    tbl = "ai.performance_analyses" ∧
    ∀ env : Env, (postgres_tools env).table_schema = "ai" := by
  obtain ⟨ev, ag, tm, gd, cs⟩ := req
  refine ⟨?_, fun env => rfl⟩
  cases ev with
  | none => simp [runAnalysisTurn] at h
  | some e =>
    cases ag with
    | none => simp [runAnalysisTurn] at h
    | some a =>
      cases tm with
      | none => simp [runAnalysisTurn] at h
      | some t =>
        simp [runAnalysisTurn] at h
        exact h

/-- C2 witness: the amended statement at a concrete complete request. -/
theorem C2_write_targets_only_analyses_witness :
    "ai.performance_analyses" = "ai.performance_analyses" ∧
    ∀ env : Env, (postgres_tools env).table_schema = "ai" :=
  C2_write_targets_only_analyses [] [] fullReq "ai.performance_analyses" (by decide)

/-- C3: for every analysis result, recruiting qualification per division is
exactly the threshold comparison — qualified iff the input time is less
than or equal to the division threshold for that event/course/gender —
and exact equality qualifies. -/
theorem C3_recruiting_qualification_threshold (standards : List StandardEntry)
    (recruiting : List RecruitingThreshold) (t : ℚ) (e : Event) (age : ℕ)
    (g : Gender) (c : Course) (r : AnalysisResult)
    (h : analyze standards recruiting t e age g c = .ok r) :
    r.recruiting_qualification =
      Division.all.map (fun d => (d, qualifies recruiting e c g d t)) ∧
    (∀ d th, findThreshold recruiting e c g d = some th →
      (qualifies recruiting e c g d t = true ↔ t ≤ th.time)) ∧
    (∀ d th, findThreshold recruiting e c g d = some th → t = th.time →
      qualifies recruiting e c g d t = true) := by
  obtain ⟨h0, grp, hgrp, rfl⟩ := analyze_ok_elim h
  refine ⟨buildResult_recruiting _ _ _ _ _ _ _ _, ?_, ?_⟩
  · intro d th hth
    unfold qualifies
    rw [hth]
    simp
  · intro d th hth hteq
    unfold qualifies
    rw [hth]
    simp [hteq]

/-- C3 witness: a 60 second swim against a D2 threshold of exactly 60
seconds — the boundary case qualifies. -/
theorem C3_recruiting_qualification_threshold_witness :
    demoR60.recruiting_qualification =
      Division.all.map (fun d => (d, qualifies demoRecruiting .fr100 .SCY .M d 60)) ∧
    (∀ d th, findThreshold demoRecruiting .fr100 .SCY .M d = some th →
      (qualifies demoRecruiting .fr100 .SCY .M d 60 = true ↔ 60 ≤ th.time)) ∧
    (∀ d th, findThreshold demoRecruiting .fr100 .SCY .M d = some th →
      60 = th.time → qualifies demoRecruiting .fr100 .SCY .M d 60 = true) :=
  C3_recruiting_qualification_threshold demoStandards demoRecruiting 60 .fr100 14
    .M .SCY demoR60 analyze_demo60

/-- C5: analyze is deterministic and idempotent — two calls with equal
inputs over an unchanged standards snapshot return equal results. -/
theorem C5_analyze_deterministic (s1 s2 : List StandardEntry)
    (rec1 rec2 : List RecruitingThreshold) (t1 t2 : ℚ) (e1 e2 : Event)
    (a1 a2 : ℕ) (g1 g2 : Gender) (c1 c2 : Course)
    (hs : s1 = s2) (hr : rec1 = rec2) (ht : t1 = t2) (he : e1 = e2)
    (ha : a1 = a2) (hg : g1 = g2) (hc : c1 = c2) :
    analyze s1 rec1 t1 e1 a1 g1 c1 = analyze s2 rec2 t2 e2 a2 g2 c2 := by
  subst hs
  subst hr
  subst ht
  subst he
  subst ha
  subst hg
  subst hc
  rfl

/-- C5 witness: determinism at one concrete input. -/
theorem C5_analyze_deterministic_witness :
    analyze demoStandards demoRecruiting 55 .fr100 14 .M .SCY =
      analyze demoStandards demoRecruiting 55 .fr100 14 .M .SCY :=
  C5_analyze_deterministic demoStandards demoStandards demoRecruiting
    demoRecruiting 55 55 .fr100 .fr100 14 14 .M .M .SCY .SCY
    rfl rfl rfl rfl rfl rfl rfl

/-- C4: over a snapshot whose level thresholds are strictly monotonic in
time, the percentile of every successful analysis lies in [0, 100], is
non-decreasing as the input time decreases (antitone in the time), and
clamps: times at or faster than the last (fastest) threshold get the
last anchor — the maximum percentile, since anchors ascend — and times
at or slower than the first (slowest) threshold get the first anchor,
the minimum. -/
theorem C4_percentile_behavior (standards : List StandardEntry)
    (recruiting : List RecruitingThreshold) (e : Event) (age : ℕ) (g : Gender)
    (c : Course) (t1 t2 : ℚ) (r1 r2 : AnalysisResult)
    (hmono : MonoSnapshot standards)
    (h1 : analyze standards recruiting t1 e age g c = .ok r1)
    (h2 : analyze standards recruiting t2 e age g c = .ok r2)
    (hle : t1 ≤ t2) :
    (0 ≤ r1.percentile ∧ r1.percentile ≤ 100) ∧
    r2.percentile ≤ r1.percentile ∧
    (t1 ≤ lastTime (pairsFor standards e c g r1.age_group_used) →
      r1.percentile = lastPct (pairsFor standards e c g r1.age_group_used)) ∧
    (headTime (pairsFor standards e c g r1.age_group_used) ≤ t1 →
      r1.percentile = headPct (pairsFor standards e c g r1.age_group_used)) := by
  obtain ⟨h01, grp1, hg1, rfl⟩ := analyze_ok_elim h1
  obtain ⟨h02, grp2, hg2, rfl⟩ := analyze_ok_elim h2
  have hgeq : grp2 = grp1 := (Option.some.inj (hg1.symm.trans hg2)).symm
  subst hgeq
  simp only [buildResult_percentile, buildResult_age_group]
  have hpairs : pairsFor standards e c g grp2 =
      withAnchors ((levelThresholds (rowsFor standards e c g grp2)).map (·.2)) := rfl
  have hsd : strictDesc
      ((levelThresholds (rowsFor standards e c g grp2)).map (·.2)) = true :=
    hmono e c g grp2
  have htd := tdesc_withAnchors hsd
  have hpm := pmono_withAnchors
    ((levelThresholds (rowsFor standards e c g grp2)).map (·.2))
  rw [hpairs]
  refine ⟨interpPct_withAnchors_bounds _ t1, interpPct_antitone htd hpm hle,
    ?_, ?_⟩
  · intro hcl
    exact interpPct_clamp_fast htd hcl
  · intro hcl
    exact interpPct_clamp_slow hcl

/-- C4 witness: the percentile behavior at 55 and 58 seconds over the
two-level demo snapshot. -/
theorem C4_percentile_behavior_witness :
    (0 ≤ demoR55.percentile ∧ demoR55.percentile ≤ 100) ∧
    demoR58.percentile ≤ demoR55.percentile ∧
    (55 ≤ lastTime (pairsFor demoStandards .fr100 .SCY .M demoR55.age_group_used) →
      demoR55.percentile =
        lastPct (pairsFor demoStandards .fr100 .SCY .M demoR55.age_group_used)) ∧
    (headTime (pairsFor demoStandards .fr100 .SCY .M demoR55.age_group_used) ≤ 55 →
      demoR55.percentile =
        headPct (pairsFor demoStandards .fr100 .SCY .M demoR55.age_group_used)) :=
  C4_percentile_behavior demoStandards demoRecruiting .fr100 14 .M .SCY 55 58
    demoR55 demoR58 (by decide) analyze_demo55 analyze_demo58 (by norm_num)

/-- C6: whenever a turn asks the user for a field, that field is event, age
or time — gender and course are never re-prompted — and a turn behaves
identically whether gender/course are unspecified or explicitly set to
the fixed defaults M and SCY, which is what the unspecified values
resolve to. -/
theorem C6_defaults_never_reprompted (standards : List StandardEntry)
    (recruiting : List RecruitingThreshold) (req : TurnRequest) (f : Field)
    (h : (runAnalysisTurn standards recruiting req).reply = Reply.requestField f) :
    (f = Field.event ∨ f = Field.age ∨ f = Field.time) ∧
    runAnalysisTurn standards recruiting
        { req with gender := none, course := none } =
      runAnalysisTurn standards recruiting
        { req with gender := some Gender.M, course := some Course.SCY } ∧
    resolveGender none = Gender.M ∧ resolveCourse none = Course.SCY := by
  obtain ⟨ev, ag, tm, gd, cs⟩ := req
  refine ⟨?_, ?_, rfl, rfl⟩
  · cases ev with
    | none =>
      simp [runAnalysisTurn] at h
      exact Or.inl h.symm
    | some e =>
      cases ag with
      | none =>
        simp [runAnalysisTurn] at h
        exact Or.inr (Or.inl h.symm)
      | some a =>
        cases tm with
        | none =>
          simp [runAnalysisTurn] at h
          exact Or.inr (Or.inr h.symm)
        | some t =>
          cases hA : analyze standards recruiting t e a (resolveGender gd)
              (resolveCourse cs) with
          | ok r => simp [runAnalysisTurn, hA] at h
          | error err => simp [runAnalysisTurn, hA] at h
  · cases ev with
    | none => rfl
    | some e =>
      cases ag with
      | none => rfl
      | some a =>
        cases tm with
        | none => rfl
        | some t => rfl

/-- C6 witness: the defaults statement at a request missing its event. -/
theorem C6_defaults_never_reprompted_witness :
    (Field.event = Field.event ∨ Field.event = Field.age ∨
      Field.event = Field.time) ∧
    runAnalysisTurn [] [] { noEventReq with gender := none, course := none } =
      runAnalysisTurn [] []
        { noEventReq with gender := some Gender.M, course := some Course.SCY } ∧
    resolveGender none = Gender.M ∧ resolveCourse none = Course.SCY :=
  C6_defaults_never_reprompted [] [] noEventReq Field.event (by decide)

/-- C7: the age-group fallback triggers exactly when the swimmer's own age
group has zero matching rows; it substitutes a group that does have rows
and is nearest by absolute band distance, and the result names the group
used, flagging the substitution iff the group differs from the exact
one. -/
theorem C7_age_group_fallback (standards : List StandardEntry)
    (recruiting : List RecruitingThreshold) (t : ℚ) (e : Event) (age : ℕ)
    (g : Gender) (c : Course) (r : AnalysisResult)
    (h : analyze standards recruiting t e age g c = .ok r) :
    (rowsFor standards e c g (ageGroupOf age) ≠ [] →
      r.age_group_used = ageGroupOf age ∧ r.fallback_applied = false) ∧
    (rowsFor standards e c g (ageGroupOf age) = [] →
      rowsFor standards e c g r.age_group_used ≠ [] ∧
      ∀ ag, rowsFor standards e c g ag ≠ [] →
        bandDistance (ageGroupOf age) r.age_group_used ≤
          bandDistance (ageGroupOf age) ag) ∧
    (r.fallback_applied = true ↔ r.age_group_used ≠ ageGroupOf age) := by
  obtain ⟨h0, grp, hgrp, rfl⟩ := analyze_ok_elim h
  simp only [buildResult_age_group, buildResult_fallback]
  refine ⟨?_, ?_, ?_⟩
  · intro hne
    have hex := resolveAgeGroup_exact hne
    have heq : grp = ageGroupOf age := Option.some.inj (hgrp.symm.trans hex)
    subst heq
    exact ⟨rfl, by simp⟩
  · intro hnil
    exact resolveAgeGroup_fallback hnil hgrp
  · simp

/-- C7 witness: a 9 year old with no 10-under rows falls back to the only
populated band, 15-16, and the result records the substitution. -/
theorem C7_age_group_fallback_witness :
    (rowsFor fbStandards .fr50 .SCY .M (ageGroupOf 9) ≠ [] →
      fbR35.age_group_used = ageGroupOf 9 ∧ fbR35.fallback_applied = false) ∧
    (rowsFor fbStandards .fr50 .SCY .M (ageGroupOf 9) = [] →
      rowsFor fbStandards .fr50 .SCY .M fbR35.age_group_used ≠ [] ∧
      ∀ ag, rowsFor fbStandards .fr50 .SCY .M ag ≠ [] →
        bandDistance (ageGroupOf 9) fbR35.age_group_used ≤
          bandDistance (ageGroupOf 9) ag) ∧
    (fbR35.fallback_applied = true ↔ fbR35.age_group_used ≠ ageGroupOf 9) :=
  C7_age_group_fallback fbStandards [] 35 .fr50 9 .M .SCY fbR35 analyze_fb35

/-- C8: a time-analysis request missing a required field issues zero tool
calls, ends the turn in the Complete state, and replies by requesting
one of the missing fields. -/
theorem C8_missing_field_no_tools (standards : List StandardEntry)
    (recruiting : List RecruitingThreshold) (req : TurnRequest)
    (h : missingRequired req ≠ []) :
    (runAnalysisTurn standards recruiting req).toolCalls = [] ∧
    (runAnalysisTurn standards recruiting req).final = TurnState.complete ∧
    ∃ f, f ∈ missingRequired req ∧
      (runAnalysisTurn standards recruiting req).reply = Reply.requestField f := by
  obtain ⟨ev, ag, tm, gd, cs⟩ := req
  cases ev with
  | none => exact ⟨rfl, rfl, .event, by simp [missingRequired], rfl⟩
  | some e =>
    cases ag with
    | none => exact ⟨rfl, rfl, .age, by simp [missingRequired], rfl⟩
    | some a =>
      cases tm with
      | none => exact ⟨rfl, rfl, .time, by simp [missingRequired], rfl⟩
      | some t =>
        exact absurd (by simp [missingRequired] :
          missingRequired ⟨some e, some a, some t, gd, cs⟩ = []) h

/-- C8 witness: a request missing its event field. -/
theorem C8_missing_field_no_tools_witness :
    (runAnalysisTurn [] [] noEventReq).toolCalls = [] ∧
    (runAnalysisTurn [] [] noEventReq).final = TurnState.complete ∧
    ∃ f, f ∈ missingRequired noEventReq ∧
      (runAnalysisTurn [] [] noEventReq).reply = Reply.requestField f :=
  C8_missing_field_no_tools [] [] noEventReq (by decide)

/-- C9 counterexample: the claim says no concurrent search ever observes an
empty corpus during a clear+reload cycle.  load_knowledge holds no lock
and swaps no generation, so the schedule that runs an unrelated search
right after the awaited clear — a schedule the asyncio event loop
permits — observes an empty corpus, although the corpus was non-empty
before the cycle and is fully re-populated after it. -/
theorem C9_concurrent_search_sees_empty :
    searchDuringReload [usaDocName, ncsaDocName] 1 = [] ∧
    ([usaDocName, ncsaDocName] : List String) ≠ [] ∧
    1 ≤ loaderProgram.length ∧
    corpusAfter [usaDocName, ncsaDocName] 3 = [usaDocName, ncsaDocName] :=
  ⟨rfl, by decide, by decide, rfl⟩

/-- C9 amended: for every initial corpus, the reload cycle exposes an
empty-corpus window to a search scheduled after the clear and a
half-loaded window after the first ingestion, before ending with
exactly the two seed documents. -/
theorem C9_reload_empty_window (init : List String) :
    corpusAfter init 0 = init ∧
    searchDuringReload init 1 = [] ∧
    corpusAfter init 2 = [usaDocName] ∧
    corpusAfter init 3 = [usaDocName, ncsaDocName] :=
  ⟨rfl, rfl, rfl, rfl⟩

/-- C9 witness: the window at a concrete one-document initial corpus. -/
theorem C9_reload_empty_window_witness :
    corpusAfter ["old-document"] 0 = ["old-document"] ∧
    searchDuringReload ["old-document"] 1 = [] ∧
    corpusAfter ["old-document"] 2 = [usaDocName] ∧
    corpusAfter ["old-document"] 3 = [usaDocName, ncsaDocName] :=
  C9_reload_empty_window ["old-document"]

/-- C10 counterexample: the claim says the ValueError is raised if and only
if OPENAI_API_KEY is unset.  src/main.py line 41 tests Python
truthiness, so an environment that sets OPENAI_API_KEY to the empty
string — set, not unset — still raises. -/
theorem C10_empty_key_still_raises :
    startupCheck envEmptyKey = Except.error "OPENAI_API_KEY not set in .env" ∧
    envEmptyKey.openai_api_key ≠ none :=
  ⟨rfl, by decide⟩

/-- C10 amended: module load fails with the ValueError message iff
OPENAI_API_KEY is unset or set to the empty string; with any other key
the check succeeds whatever the database variables hold, none of which
is inspected. -/
theorem C10_startup_check_iff (k d h p n u pw m : Option String) :
    ((∃ msg, startupCheck ⟨k, d, h, p, n, u, pw, m⟩ = Except.error msg) ↔
      (k = none ∨ k = some "")) ∧
    (∀ s, k = some s → s ≠ "" →
      startupCheck ⟨k, d, h, p, n, u, pw, m⟩ =
        Except.ok ⟨k, d, h, p, n, u, pw, m⟩) := by
  constructor
  · cases k with
    | none => simp [startupCheck, pyFalsy]
    | some s =>
      by_cases hs : s = ""
      · subst hs
        simp [startupCheck, pyFalsy]
      · simp [startupCheck, pyFalsy, hs]
  · intro s hk hs
    subst hk
    simp [startupCheck, pyFalsy, hs]

/-- C10 witness: a fully populated environment with a non-empty key passes
the check; the same environment with an unset key fails. -/
theorem C10_startup_check_iff_witness :
    ((∃ msg, startupCheck ⟨some "sk-test", some "postgres://db", some "localhost",
        some "5432", some "swim", some "swim", some "pw", some "development"⟩ =
          Except.error msg) ↔
      (some "sk-test" = none ∨ some "sk-test" = some "")) ∧
    (∀ s, some "sk-test" = some s → s ≠ "" →
      startupCheck ⟨some "sk-test", some "postgres://db", some "localhost",
          some "5432", some "swim", some "swim", some "pw", some "development"⟩ =
        Except.ok ⟨some "sk-test", some "postgres://db", some "localhost",
          some "5432", some "swim", some "swim", some "pw", some "development"⟩) :=
  C10_startup_check_iff (some "sk-test") (some "postgres://db") (some "localhost")
    (some "5432") (some "swim") (some "swim") (some "pw") (some "development")

end SwimBench
